import Mathlib

set_option maxHeartbeats 1000000

/-!
Verification of core components of the paqet proxy:

* the iptables manager (`internal/gfwresist`, `src/unnamed/part_008`);
* the client stream-open retry logic (`internal/client`, `src/unnamed/part_005`);
* the sized buffer pool (`src/internal/pkg/buffer/buffer.go`);
* the stream protocol framing (`internal/protocol`, `src/unnamed/part_011`);
* the server TUN handler (`src/internal/server/tun.go`, `src/unnamed/part_009`);
* the TCP transport ping (`src/internal/tnet/tcp/conn.go`).

Go integers are modelled as `Int` (or `Nat` where the source value is
non-negative by construction), byte strings as `List Nat` of byte values,
fallible calls as `Option`, and the outside world (executed shell commands,
the network, the clock) as explicit oracle functions passed to each modelled
operation.
-/

namespace Paqet

/-! ## Iptables manager (`internal/gfwresist`, src/unnamed/part_008)

`Apply` walks the three rules in order and, for each rule, runs first
`iptables` and then `ip6tables`; every successful add is recorded in
`applied`, and the walk stops at the first failing command.  `Cleanup`
replays `applied`, issuing the corresponding `-D` command for each entry;
delete failures are logged and skipped.  The host's rule set is modelled as
a bag of (binary, rule) instances: a successful `-A` inserts one instance
and a successful `-D` removes one. -/

namespace Gfwresist

/-- `iptablesRule` from the source: table, chain and argument vector. -/
structure IptablesRule where
  table : String
  chain : String
  args : List String
deriving DecidableEq

/-- `appliedRule` from the source: the binary (`iptables` or `ip6tables`)
together with the rule it successfully added. -/
structure AppliedRule where
  bin : String
  rule : IptablesRule
deriving DecidableEq

/-- A shell command issued through `runCmd`: binary name plus arguments. -/
structure Cmd where
  bin : String
  args : List String
deriving DecidableEq

/-- `IPTablesManager.rules`: the three rules, in source order. -/
def rules (port : Int) : List IptablesRule :=
  [ ⟨"raw", "PREROUTING", ["-p", "tcp", "--dport", toString port, "-j", "NOTRACK"]⟩,
    ⟨"raw", "OUTPUT", ["-p", "tcp", "--sport", toString port, "-j", "NOTRACK"]⟩,
    ⟨"mangle", "OUTPUT",
      ["-p", "tcp", "--sport", toString port, "--tcp-flags", "RST", "RST", "-j", "DROP"]⟩ ]

/-- The `-A` (append) command `Apply` issues for one binary/rule pair. -/
def addCmd (a : AppliedRule) : Cmd :=
  ⟨a.bin, ["-t", a.rule.table, "-A", a.rule.chain] ++ a.rule.args⟩

/-- The `-D` (delete) command `Cleanup` issues for one applied rule. -/
def delCmd (a : AppliedRule) : Cmd :=
  ⟨a.bin, ["-t", a.rule.table, "-D", a.rule.chain] ++ a.rule.args⟩

/-- The binary/rule pairs `Apply` walks, in order: the outer loop runs over
the three rules, the inner loop over the binaries `iptables`, `ip6tables`. -/
def addSequence (port : Int) : List AppliedRule :=
  (rules port).flatMap fun r => [⟨"iptables", r⟩, ⟨"ip6tables", r⟩]

/-- The host's iptables rule set: a bag of (binary, rule) instances. -/
abbrev RuleBag := Multiset AppliedRule

/-- Result of `Apply`: the manager's `applied` list, the add commands issued
in order, the host rule set afterwards, and whether an error was returned. -/
structure ApplyOut where
  applied : List AppliedRule
  trace : List Cmd
  state : RuleBag
  failed : Bool

/-- The add loop of `Apply`: issue the add command for each pair in order and
stop at the first failure; each successful add is appended to `applied` and
inserts one rule instance into the host rule set.  The oracle `exec` tells
which commands succeed. -/
def runAdds (exec : Cmd → Bool) : List AppliedRule → RuleBag → ApplyOut
  | [], s => ⟨[], [], s, false⟩
  | a :: rest, s =>
    if exec (addCmd a) then
      let out := runAdds exec rest (a ::ₘ s)
      ⟨a :: out.applied, addCmd a :: out.trace, out.state, out.failed⟩
    else
      ⟨[], [addCmd a], s, true⟩

/-- `IPTablesManager.Apply`, parametrized by the value of `runtime.GOOS`, the
manager's port and previously applied list, the command oracle and the
initial host rule set.  Off Linux, or with a port outside 1..65535, it
returns an error before issuing any command. -/
def Apply (goos : String) (port : Int) (applied0 : List AppliedRule)
    (exec : Cmd → Bool) (s : RuleBag) : ApplyOut :=
  if goos ≠ "linux" then ⟨applied0, [], s, true⟩
  else if port < 1 ∨ port > 65535 then ⟨applied0, [], s, true⟩
  else
    let out := runAdds exec (addSequence port) s
    ⟨applied0 ++ out.applied, out.trace, out.state, out.failed⟩

/-- `IPTablesManager.Cleanup`: issue the delete command for every applied rule
in order; a successful delete removes one matching instance from the host
rule set, a failed delete is logged and skipped.  Returns the issued
commands and the final rule set. -/
def Cleanup (exec : Cmd → Bool) : List AppliedRule → RuleBag → List Cmd × RuleBag
  | [], s => ([], s)
  | a :: rest, s =>
    let s1 := if exec (delCmd a) then s.erase a else s
    let out := Cleanup exec rest s1
    (delCmd a :: out.1, out.2)

theorem runAdds_applied_exec (exec : Cmd → Bool) :
    ∀ (l : List AppliedRule) (s : RuleBag) (a : AppliedRule),
      a ∈ (runAdds exec l s).applied → exec (addCmd a) = true := by
  intro l
  induction l with
  | nil => intro s a h; simp [runAdds] at h
  | cons b rest ih =>
    intro s a h
    by_cases hb : exec (addCmd b)
    · simp only [runAdds, hb, if_true, List.mem_cons] at h
      rcases h with rfl | h
      · exact hb
      · exact ih _ a h
    · simp [runAdds, hb] at h

theorem runAdds_state (exec : Cmd → Bool) :
    ∀ (l : List AppliedRule) (s : RuleBag),
      (runAdds exec l s).state = s + ↑(runAdds exec l s).applied := by
  intro l
  induction l with
  | nil => intro s; simp [runAdds]
  | cons b rest ih =>
    intro s
    by_cases hb : exec (addCmd b)
    · simp only [runAdds, hb, if_true]
      rw [ih, ← Multiset.cons_coe, Multiset.add_cons, Multiset.cons_add]
    · simp [runAdds, hb]

theorem cleanup_cmds (exec : Cmd → Bool) :
    ∀ (l : List AppliedRule) (s : RuleBag), (Cleanup exec l s).1 = l.map delCmd := by
  intro l
  induction l with
  | nil => intro s; simp [Cleanup]
  | cons a rest ih => intro s; simp [Cleanup, ih]

theorem cleanup_restores (exec : Cmd → Bool) :
    ∀ (l : List AppliedRule) (s : RuleBag),
      (∀ a ∈ l, exec (delCmd a) = true) →
      (Cleanup exec l (s + ↑l)).2 = s := by
  intro l
  induction l with
  | nil => intro s _; simp [Cleanup]
  | cons a rest ih =>
    intro s h
    have ha : exec (delCmd a) = true := h a (List.mem_cons_self a rest)
    have hs : ((s + ↑(a :: rest)) : RuleBag).erase a = s + ↑rest := by
      have : ((s + ↑(a :: rest)) : RuleBag) = a ::ₘ (s + ↑rest) := by
        rw [← Multiset.cons_coe, Multiset.add_cons]
      rw [this, Multiset.erase_cons_head]
    simp only [Cleanup, ha, if_true, hs]
    exact ih s (fun b hb => h b (List.mem_cons_of_mem a hb))

/-- C1: after `Apply` returns (success or partial failure) and `Cleanup` is
called, the delete commands issued are exactly one per successfully added
rule, in order; no delete is issued for a rule that was not successfully
added; and when those deletes succeed, the host iptables rule set equals the
pre-`Apply` set. -/
theorem iptables_rollback (goos : String) (port : Int) (exec : Cmd → Bool)
    (s : RuleBag)
    (hdel : ∀ a ∈ (Apply goos port [] exec s).applied, exec (delCmd a) = true) :
    (Cleanup exec (Apply goos port [] exec s).applied (Apply goos port [] exec s).state).1
        = ((Apply goos port [] exec s).applied).map delCmd
    ∧ (∀ a ∈ (Apply goos port [] exec s).applied, exec (addCmd a) = true)
    ∧ (Cleanup exec (Apply goos port [] exec s).applied (Apply goos port [] exec s).state).2
        = s := by
  refine ⟨cleanup_cmds exec _ _, ?_, ?_⟩
  · intro a ha
    unfold Apply at ha
    split_ifs at ha with h1 h2
    · simp at ha
    · simp at ha
    · simp only [List.nil_append] at ha
      exact runAdds_applied_exec exec _ _ a ha
  · unfold Apply at hdel ⊢
    split_ifs at hdel ⊢ with h1 h2
    · simp [Cleanup]
    · simp [Cleanup]
    · simp only [List.nil_append] at hdel ⊢
      rw [runAdds_state]
      exact cleanup_restores exec _ s hdel

/-- Witness for `iptables_rollback`: on Linux, port 443, with every command
succeeding, the cleanup commands are the deletes of the applied rules and
the rule set returns to empty. -/
theorem iptables_rollback_witness :
    (∀ a ∈ (Apply "linux" 443 [] (fun _ => true) 0).applied,
        (fun _ => true) (delCmd a) = true)
    ∧ (Cleanup (fun _ => true) (Apply "linux" 443 [] (fun _ => true) 0).applied
        (Apply "linux" 443 [] (fun _ => true) 0).state).2 = 0 :=
  ⟨fun _ _ => rfl,
    (iptables_rollback "linux" 443 (fun _ => true) 0 (fun _ _ => rfl)).2.2⟩

theorem runAdds_trace_initial (exec : Cmd → Bool) :
    ∀ (l : List AppliedRule) (s : RuleBag),
      ∃ t, (runAdds exec l s).trace ++ t = l.map addCmd := by
  intro l
  induction l with
  | nil => intro s; exact ⟨[], rfl⟩
  | cons b rest ih =>
    intro s
    by_cases hb : exec (addCmd b)
    · obtain ⟨t, ht⟩ := ih (b ::ₘ s)
      refine ⟨t, ?_⟩
      simp only [runAdds, hb, if_true, List.map_cons, List.cons_append, ht]
    · exact ⟨rest.map addCmd, by simp [runAdds, hb]⟩

theorem runAdds_all_success (exec : Cmd → Bool) (hall : ∀ c, exec c = true) :
    ∀ (l : List AppliedRule) (s : RuleBag),
      (runAdds exec l s).trace = l.map addCmd ∧ (runAdds exec l s).failed = false := by
  intro l
  induction l with
  | nil => intro s; exact ⟨rfl, rfl⟩
  | cons b rest ih =>
    intro s
    obtain ⟨ht, hf⟩ := ih (b ::ₘ s)
    simp only [runAdds, hall (addCmd b), if_true, List.map_cons]
    exact ⟨by rw [ht], hf⟩

/-- C6: `Apply` returns an error without issuing any command when the
platform is not Linux or the port is outside 1..65535; otherwise the add
commands it issues are, in order, the `iptables` then `ip6tables` adds of
the raw PREROUTING NOTRACK rule, then of the raw OUTPUT NOTRACK rule, then
of the mangle OUTPUT RST-DROP rule: always a prefix of that six-command
sequence (it stops at the first failing command), and exactly the whole
sequence, with no error, when every command succeeds. -/
theorem iptables_apply_order (goos : String) (port : Int) (exec : Cmd → Bool)
    (s : RuleBag) :
    ((goos ≠ "linux" ∨ port < 1 ∨ port > 65535) →
        Apply goos port [] exec s = ⟨[], [], s, true⟩)
    ∧ (goos = "linux" → 1 ≤ port → port ≤ 65535 →
        (∃ t, (Apply goos port [] exec s).trace ++ t = (addSequence port).map addCmd)
        ∧ ((∀ c, exec c = true) →
            (Apply goos port [] exec s).trace = (addSequence port).map addCmd
            ∧ (Apply goos port [] exec s).failed = false)) := by
  constructor
  · intro h
    unfold Apply
    split_ifs with h1 h2
    · rfl
    · rfl
    · rcases h with h | h | h
      · exact absurd h h1
      · exact absurd (Or.inl h) h2
      · exact absurd (Or.inr h) h2
  · intro hg hp1 hp2
    have h1 : ¬goos ≠ "linux" := by simp [hg]
    have h2 : ¬(port < 1 ∨ port > 65535) := by omega
    unfold Apply
    rw [if_neg h1, if_neg h2]
    exact ⟨runAdds_trace_initial exec _ s,
      fun hall => runAdds_all_success exec hall _ s⟩

/-- Witness for `iptables_apply_order`: off Linux nothing is issued; on
Linux with port 443 and every command succeeding, the full six-command
sequence is issued. -/
theorem iptables_apply_order_witness :
    Apply "windows" 443 [] (fun _ => true) 0 = ⟨[], [], 0, true⟩
    ∧ (Apply "linux" 443 [] (fun _ => true) 0).trace
        = (addSequence 443).map addCmd := by
  constructor
  · exact (iptables_apply_order "windows" 443 (fun _ => true) 0).1
      (Or.inl (by decide))
  · exact (((iptables_apply_order "linux" 443 (fun _ => true) 0).2 rfl
      (by decide) (by decide)).2 (fun c => rfl)).1

end Gfwresist

/-! ## Client stream-open retry and connection probing
(`internal/client`, src/unnamed/part_005)

`newStrmWithRetry(attempt)` substitutes the default 5 when
`max_retry_attempts` is not positive, returns an error once
`attempt >= maxAttempts`, and otherwise calls `newConn(attempt > 0)` and
`OpenStrm()`, sleeping `calculateRetryBackoff(attempt)` and making the
recursive call `newStrmWithRetry(attempt + 1)` when either fails.  The
model keeps `attempt : Int` (a Go `int`) and recurses structurally on the
fuel `(maxAttempts - attempt).toNat`, which is zero exactly when the
source's `attempt >= maxAttempts` guard fires.  Times are in
milliseconds.  The source computes the backoff in `float64`
(`float64(initialBackoff) * math.Pow(2, float64(attempt))`, clamped at
`maxBackoff`); products of an integer below 2^53 with a power of two are
exact in `float64` (or overflow past the clamp), so the integer model is
exact for every value a Go `int` configuration can reach under the
validated ranges. -/

namespace Client

/-- The `performance` configuration fields the dial code reads (Go `int`s,
so possibly zero or negative). -/
structure Performance where
  MaxRetryAttempts : Int
  RetryInitialBackoffMs : Int
  RetryMaxBackoffMs : Int
  ConnectionHealthCheckMs : Int
  TCPFlagRefreshMs : Int
deriving DecidableEq

/-- `Client.calculateRetryBackoff`, in milliseconds: defaults 100 and 10000
for non-positive configured values, then `initialBackoff * 2^attempt`
clamped at `maxBackoff`.  Call sites only pass `attempt ≥ 0`, hence the
`Nat` argument. -/
def calculateRetryBackoff (cfg : Performance) (attempt : Nat) : Int :=
  let initialBackoff :=
    if cfg.RetryInitialBackoffMs ≤ 0 then 100 else cfg.RetryInitialBackoffMs
  let maxBackoff :=
    if cfg.RetryMaxBackoffMs ≤ 0 then 10000 else cfg.RetryMaxBackoffMs
  let backoffMs := initialBackoff * 2 ^ attempt
  if backoffMs > maxBackoff then maxBackoff else backoffMs

/-- The retry ceiling `newStrmWithRetry` computes: the configured
`max_retry_attempts`, or the default 5 when that is not positive. -/
def maxAttemptsOf (cfg : Performance) : Int :=
  if cfg.MaxRetryAttempts ≤ 0 then 5 else cfg.MaxRetryAttempts

/-- Observable outcome of one `newStrmWithRetry` call: whether a stream was
obtained, the `(attempt, forceHealthCheck)` argument pairs of the `newConn`
calls made, the backoff sleeps in milliseconds in order, and the number of
invocations of `newStrmWithRetry` itself (1 for the initial call plus one
per recursive self-call, i.e. the call-stack depth the Go code builds). -/
structure RetryTrace where
  ok : Bool
  connCalls : List (Int × Bool)
  sleeps : List Int
  depth : Nat
deriving DecidableEq

/-- The body of `newStrmWithRetry`, with the guard `attempt >= maxAttempts`
made structural: `fuel = (maxAttemptsOf cfg - attempt).toNat` is zero
exactly when the guard fires.  `connOK a` tells whether the `newConn` call
made at attempt `a` succeeds, `strmOK a` whether the following `OpenStrm`
succeeds. -/
def retryGo (cfg : Performance) (connOK strmOK : Int → Bool) :
    Nat → Int → RetryTrace
  | 0, _ => ⟨false, [], [], 1⟩
  | fuel + 1, attempt =>
    if connOK attempt then
      if strmOK attempt then ⟨true, [(attempt, decide (attempt > 0))], [], 1⟩
      else
        let r := retryGo cfg connOK strmOK fuel (attempt + 1)
        ⟨r.ok, (attempt, decide (attempt > 0)) :: r.connCalls,
          calculateRetryBackoff cfg attempt.toNat :: r.sleeps, r.depth + 1⟩
    else
      let r := retryGo cfg connOK strmOK fuel (attempt + 1)
      ⟨r.ok, (attempt, decide (attempt > 0)) :: r.connCalls,
        calculateRetryBackoff cfg attempt.toNat :: r.sleeps, r.depth + 1⟩

/-- `Client.newStrmWithRetry`. -/
def newStrmWithRetry (cfg : Performance) (connOK strmOK : Int → Bool)
    (attempt : Int) : RetryTrace :=
  retryGo cfg connOK strmOK ((maxAttemptsOf cfg - attempt).toNat) attempt

/-- `Client.newStrm` starts the retry at attempt 0. -/
def newStrm (cfg : Performance) (connOK strmOK : Int → Bool) : RetryTrace :=
  newStrmWithRetry cfg connOK strmOK 0

theorem retryGo_connCalls_le (cfg : Performance) (connOK strmOK : Int → Bool) :
    ∀ (fuel : Nat) (a : Int),
      (retryGo cfg connOK strmOK fuel a).connCalls.length ≤ fuel := by
  intro fuel
  induction fuel with
  | zero => intro a; simp [retryGo]
  | succ n ih =>
    intro a
    by_cases hc : connOK a
    · by_cases hs : strmOK a
      · simp [retryGo, hc, hs]
      · simp only [retryGo, hc, if_true, hs, if_false, List.length_cons]
        exact Nat.succ_le_succ (ih (a + 1))
    · simp only [retryGo, hc, if_false, List.length_cons]
      exact Nat.succ_le_succ (ih (a + 1))

/-- C2: stream opening retries are hard-bounded.  The ceiling
`maxAttemptsOf cfg` is positive (the default 5 is substituted for a
non-positive configured `max_retry_attempts`); a stream-open call starting
at attempt 0 makes at most that many `newConn` attempts; and a call whose
attempt counter has reached the ceiling returns an error at once, making
no attempt, no sleep and no further self-call. -/
theorem newStrmWithRetry_bounded (cfg : Performance)
    (connOK strmOK : Int → Bool) (a : Int) :
    0 < maxAttemptsOf cfg
    ∧ (newStrm cfg connOK strmOK).connCalls.length ≤ (maxAttemptsOf cfg).toNat
    ∧ (maxAttemptsOf cfg ≤ a →
        newStrmWithRetry cfg connOK strmOK a = ⟨false, [], [], 1⟩) := by
  refine ⟨?_, ?_, ?_⟩
  · unfold maxAttemptsOf
    split_ifs with h <;> omega
  · have h := retryGo_connCalls_le cfg connOK strmOK
      ((maxAttemptsOf cfg - 0).toNat) 0
    simpa [newStrm, newStrmWithRetry] using h
  · intro h
    have hz : (maxAttemptsOf cfg - a).toNat = 0 := by omega
    rw [newStrmWithRetry, hz, retryGo]

/-- Witness for `newStrmWithRetry_bounded`: with `max_retry_attempts = 0`
(default 5 substituted) and every attempt failing, a call at attempt 7 is
already past the ceiling and returns an error without attempting. -/
theorem newStrmWithRetry_bounded_witness :
    newStrmWithRetry ⟨0, 0, 0, 0, 0⟩ (fun _ => false) (fun _ => false) 7
      = ⟨false, [], [], 1⟩ :=
  (newStrmWithRetry_bounded ⟨0, 0, 0, 0, 0⟩ (fun _ => false) (fun _ => false)
    7).2.2 (by decide)

/-- C3 (failing input): with `max_retry_attempts = 5` and every `newConn`
call failing, the call `newStrmWithRetry(0)` reaches invocation depth 6:
every retry in the source is the recursive self-call
`return c.newStrmWithRetry(attempt + 1)` (one stack frame per failed
attempt), not an iteration of a loop. -/
theorem newStrmWithRetry_recursion_depth :
    (newStrmWithRetry ⟨5, 100, 10000, 1000, 5000⟩ (fun _ => false)
      (fun _ => false) 0).depth = 6 := by decide

theorem retryGo_sleeps (cfg : Performance) (connOK strmOK : Int → Bool) :
    ∀ (fuel : Nat) (a : Int) (j : Nat),
      j < (retryGo cfg connOK strmOK fuel a).sleeps.length →
      (retryGo cfg connOK strmOK fuel a).sleeps.get? j
        = some (calculateRetryBackoff cfg (a + j).toNat) := by
  intro fuel
  induction fuel with
  | zero => intro a j h; simp [retryGo] at h
  | succ n ih =>
    intro a j h
    have harith : ∀ j : Nat,
        (a + 1 + (j : Int)).toNat = (a + ((j + 1 : Nat) : Int)).toNat := by
      intro j
      congr 1
      push_cast
      ring
    by_cases hc : connOK a
    · by_cases hs : strmOK a
      · simp [retryGo, hc, hs] at h
      · rw [Bool.not_eq_true] at hs
        simp only [retryGo, hc, hs, if_true, Bool.false_eq_true, if_false,
          List.length_cons] at h ⊢
        match j with
        | 0 => simp
        | j + 1 =>
          rw [List.get?_cons_succ, ih (a + 1) j (by omega), harith j]
    · rw [Bool.not_eq_true] at hc
      simp only [retryGo, hc, Bool.false_eq_true, if_false,
        List.length_cons] at h ⊢
      match j with
      | 0 => simp
      | j + 1 =>
        rw [List.get?_cons_succ, ih (a + 1) j (by omega), harith j]

/-- C4: in a stream-open run started at attempt 0, the j-th backoff sleep
(0-based: the wait before retry number j+1) is
`min(initialBackoff * 2^j, maxBackoff)` milliseconds, where the defaults
100 and 10000 replace non-positive configured values of
`retry_initial_backoff_ms` and `retry_max_backoff_ms`. -/
theorem retry_backoff_formula (cfg : Performance) (connOK strmOK : Int → Bool)
    (j : Nat) (h : j < (newStrm cfg connOK strmOK).sleeps.length) :
    (newStrm cfg connOK strmOK).sleeps.get? j
      = some (min
          ((if cfg.RetryInitialBackoffMs ≤ 0 then 100
            else cfg.RetryInitialBackoffMs) * 2 ^ j)
          (if cfg.RetryMaxBackoffMs ≤ 0 then 10000
            else cfg.RetryMaxBackoffMs)) := by
  rw [newStrm, newStrmWithRetry] at h
  have hget := retryGo_sleeps cfg connOK strmOK
    ((maxAttemptsOf cfg - 0).toNat) 0 j h
  rw [newStrm, newStrmWithRetry, hget]
  have hj : ((0 : Int) + (j : Int)).toNat = j := by omega
  rw [hj]
  have key : ∀ i m : Int,
      (if i * 2 ^ j > m then m else i * 2 ^ j) = min (i * 2 ^ j) m := by
    intro i m
    split_ifs with hb
    · exact (min_eq_right (le_of_lt hb)).symm
    · exact (min_eq_left (not_lt.mp hb)).symm
  simp only [calculateRetryBackoff]
  rw [key]

/-- Witness for `retry_backoff_formula`: with default backoff parameters and
every attempt failing, the third sleep (j = 2) is min(100·2², 10000) = 400 ms. -/
theorem retry_backoff_formula_witness :
    2 < (newStrm ⟨5, 0, 0, 0, 0⟩ (fun _ => false) (fun _ => false)).sleeps.length
    ∧ (newStrm ⟨5, 0, 0, 0, 0⟩ (fun _ => false) (fun _ => false)).sleeps.get? 2
        = some 400 := by
  constructor
  · decide
  · rw [retry_backoff_formula ⟨5, 0, 0, 0, 0⟩ (fun _ => false) (fun _ => false)
      2 (by decide)]
    decide

/-- Connection identifiers: the model's stand-in for `tnet.Conn` values. -/
abbrev ConnId := Nat

/-- `timedConn`: the per-slot record the supervisor keeps (times in ms). -/
structure TimedConn where
  conn : Option ConnId
  expire : Int
  lastHealthCheck : Int
  lastTCPFSend : Int
deriving DecidableEq

/-- Result of `newConn`: the returned connection (`none` = error), the
slot's state afterwards (`none` when the iterator had no slot), and the
list of connections that were closed. -/
structure NewConnOut where
  result : Option ConnId
  tc : Option TimedConn
  closed : List ConnId
deriving DecidableEq

/-- The part of `newConn` after the nil-connection recovery: the periodic
PTCPF refresh, then the health probe (run when `forceCheck` is set or the
last probe is at least `connection_health_check_ms` old, default 1000 ms;
on ping failure the old connection is closed and a fresh one created with
all timestamps set to a fresh `time.Now()`).  `c0` is the slot's current
connection, `k` the index of the next `time.Now()` call, `cIdx` the index
of the next `tc.createConn()` call. -/
def newConnChecks (cfg : Performance) (forceCheck : Bool) (c0 : ConnId)
    (tc : TimedConn) (k cIdx : Nat) (clock : Nat → Int)
    (createConn : Nat → Option ConnId) (sendTCPFOK pingOK : ConnId → Bool) :
    NewConnOut :=
  let healthEvery :=
    if cfg.ConnectionHealthCheckMs ≤ 0 then 1000 else cfg.ConnectionHealthCheckMs
  let tcpfEvery :=
    if cfg.TCPFlagRefreshMs ≤ 0 then 5000 else cfg.TCPFlagRefreshMs
  let now := clock k
  let tc1 :=
    if now - tc.lastTCPFSend ≥ tcpfEvery then
      if sendTCPFOK c0 then { tc with lastTCPFSend := now } else tc
    else tc
  if forceCheck = true ∨ now - tc.lastHealthCheck ≥ healthEvery then
    let tc2 := { tc1 with lastHealthCheck := now }
    if pingOK c0 then ⟨some c0, some tc2, []⟩
    else
      match createConn cIdx with
      | none => ⟨none, some tc2, [c0]⟩
      | some c1 =>
        let now2 := clock (k + 1)
        ⟨some c1, some ⟨some c1, now2 + 300000, now2, now2⟩, [c0]⟩
  else ⟨some c0, some tc1, []⟩

/-- `Client.newConn`: `next` is what `c.iter.Next()` returned (an error is
returned when it is nil); a nil slot connection is recreated first, with
its expiry 300 s ahead and both timestamps set to `time.Now()`. -/
def newConn (cfg : Performance) (forceCheck : Bool) (next : Option TimedConn)
    (clock : Nat → Int) (createConn : Nat → Option ConnId)
    (sendTCPFOK pingOK : ConnId → Bool) : NewConnOut :=
  match next with
  | none => ⟨none, none, []⟩
  | some tc0 =>
    match tc0.conn with
    | some c0 =>
      newConnChecks cfg forceCheck c0 tc0 0 0 clock createConn sendTCPFOK pingOK
    | none =>
      match createConn 0 with
      | none => ⟨none, some tc0, []⟩
      | some c0 =>
        let now := clock 0
        newConnChecks cfg forceCheck c0 ⟨some c0, now + 300000, now, now⟩ 1 1
          clock createConn sendTCPFOK pingOK

theorem retryGo_connCalls_flag (cfg : Performance) (connOK strmOK : Int → Bool) :
    ∀ (fuel : Nat) (a : Int) (p : Int × Bool),
      p ∈ (retryGo cfg connOK strmOK fuel a).connCalls →
      p.2 = decide (p.1 > 0) := by
  intro fuel
  induction fuel with
  | zero => intro a p h; simp [retryGo] at h
  | succ n ih =>
    intro a p h
    by_cases hc : connOK a
    · by_cases hs : strmOK a
      · simp only [retryGo, hc, hs, if_true, List.mem_singleton] at h
        rw [h]
      · rw [Bool.not_eq_true] at hs
        simp only [retryGo, hc, hs, if_true, Bool.false_eq_true, if_false,
          List.mem_cons] at h
        rcases h with rfl | h
        · rfl
        · exact ih (a + 1) p h
    · rw [Bool.not_eq_true] at hc
      simp only [retryGo, hc, Bool.false_eq_true, if_false,
        List.mem_cons] at h
      rcases h with rfl | h
      · rfl
      · exact ih (a + 1) p h

/-- C7: when a health probe is due (`forceCheck` set, or at least
`connection_health_check_ms` since the last probe) and the non-blocking
ping fails, `newConn` closes the old connection and, when creation
succeeds, returns a fresh connection whose health-check and TCPF
timestamps are reset to the fresh `time.Now()`; when the ping succeeds the
existing connection is returned and nothing is closed.  Every `newConn`
call made by the retry loop passes `forceCheck = (attempt > 0)`, so the
second and later attempts force the probe. -/
theorem newConn_health_check (cfg : Performance) (forceCheck : Bool)
    (tc0 : TimedConn) (c0 c1 : ConnId) (clock : Nat → Int)
    (createConn : Nat → Option ConnId) (sendTCPFOK pingOK : ConnId → Bool)
    (connOK strmOK : Int → Bool)
    (hconn : tc0.conn = some c0)
    (hdue : forceCheck = true ∨
      clock 0 - tc0.lastHealthCheck ≥
        (if cfg.ConnectionHealthCheckMs ≤ 0 then 1000
          else cfg.ConnectionHealthCheckMs)) :
    (pingOK c0 = false → createConn 0 = some c1 →
      newConn cfg forceCheck (some tc0) clock createConn sendTCPFOK pingOK
        = ⟨some c1, some ⟨some c1, clock 1 + 300000, clock 1, clock 1⟩, [c0]⟩)
    ∧ (pingOK c0 = true →
      (newConn cfg forceCheck (some tc0) clock createConn
          sendTCPFOK pingOK).result = some c0
      ∧ (newConn cfg forceCheck (some tc0) clock createConn
          sendTCPFOK pingOK).closed = [])
    ∧ (∀ p ∈ (newStrm cfg connOK strmOK).connCalls, p.2 = decide (p.1 > 0)) := by
  refine ⟨?_, ?_, ?_⟩
  · intro hping hcreate
    simp only [newConn, hconn, newConnChecks]
    rw [if_pos hdue, hping]
    simp only [Bool.false_eq_true, if_false, hcreate]
  · intro hping
    simp only [newConn, hconn, newConnChecks]
    rw [if_pos hdue, hping]
    exact ⟨rfl, rfl⟩
  · intro p hp
    exact retryGo_connCalls_flag cfg connOK strmOK _ 0 p hp

/-- Witness for `newConn_health_check`: a due probe whose ping fails makes
`newConn` close connection 7 and return the fresh connection 8 with both
timestamps reset to the second `time.Now()` (101000 ms). -/
theorem newConn_health_check_witness :
    newConn ⟨5, 100, 10000, 1000, 5000⟩ false (some ⟨some 7, 500, 0, 0⟩)
        (fun k => 100000 + 1000 * k) (fun _ => some 8) (fun _ => true)
        (fun _ => false)
      = ⟨some 8, some ⟨some 8, 401000, 101000, 101000⟩, [7]⟩ := by
  have h := (newConn_health_check ⟨5, 100, 10000, 1000, 5000⟩ false
    ⟨some 7, 500, 0, 0⟩ 7 8 (fun k => 100000 + 1000 * k) (fun _ => some 8)
    (fun _ => true) (fun _ => false) (fun _ => false) (fun _ => false)
    rfl (Or.inr (by norm_num))).1 rfl rfl
  simpa using h

end Client

/-! ## Sized buffer pool (`src/internal/pkg/buffer/buffer.go`)

A Go slice is modelled as an identity (its backing array), a length and a
capacity.  `sync.Pool` is modelled as a stack of pooled buffers whose `Get`
pops the most recent entry and calls the `New` function (allocating
`make([]byte, defaultSize)`) when empty; `nextId` numbers fresh backing
arrays so freshness is observable. -/

namespace Buffer

/-- A `*[]byte`: backing-array identity, length and capacity. -/
structure Buf where
  id : Nat
  len : Nat
  cap : Nat
deriving DecidableEq

/-- `Pool`: the default size, the pooled entries (most recent first) and
the id supply for fresh allocations. -/
structure Pool where
  defaultSize : Nat
  stack : List Buf
  nextId : Nat
deriving DecidableEq

/-- `newPool size`: empty pool whose `New` allocates `size`-byte buffers. -/
def newPool (size : Nat) : Pool := ⟨size, [], 0⟩

/-- `p.pool.Get()`: pop a pooled buffer, or allocate a fresh
`make([]byte, defaultSize)`. -/
def Pool.rawGet (p : Pool) : Buf × Pool :=
  match p.stack with
  | b :: rest => (b, { p with stack := rest })
  | [] => (⟨p.nextId, p.defaultSize, p.defaultSize⟩, { p with nextId := p.nextId + 1 })

/-- `Pool.Get`: a buffer of exactly the pool's default size
(`*bufp = (*bufp)[:p.defaultSize]`). -/
def Pool.Get (p : Pool) : Buf × Pool :=
  let out := p.rawGet
  ({ out.1 with len := p.defaultSize }, out.2)

/-- `Pool.GetN n`: reslice the pooled buffer to `n` when its capacity
suffices; otherwise put the pooled buffer back and return a fresh
allocation of exactly `n` bytes. -/
def Pool.GetN (p : Pool) (n : Nat) : Buf × Pool :=
  let out := p.rawGet
  if n ≤ out.1.cap then ({ out.1 with len := n }, out.2)
  else
    let p2 := { out.2 with stack := out.1 :: out.2.stack }
    (⟨p2.nextId, n, n⟩, { p2 with nextId := p2.nextId + 1 })

/-- `Pool.Put`: discard buffers whose capacity is below the default size,
otherwise reslice to the default size and pool the buffer. -/
def Pool.Put (p : Pool) (b : Buf) : Pool :=
  if b.cap < p.defaultSize then p
  else { p with stack := { b with len := p.defaultSize } :: p.stack }

/-- C5 (failing input): with default size 1024, `GetN 2048` returns a fresh
allocation (id 1, capacity 2048, distinct from the pool-backed id 0), and
`Put` of that buffer places it into the pool (resliced to length 1024)
instead of discarding it — contradicting the claim and the source's own
comment on `GetN` that `Put` is a no-op for such a buffer. -/
theorem pool_put_pools_oversized_alloc :
    ((newPool 1024).GetN 2048).1 = ⟨1, 2048, 2048⟩
    ∧ (⟨1, 1024, 2048⟩ : Buf) ∈
        (((newPool 1024).GetN 2048).2.Put ((newPool 1024).GetN 2048).1).stack := by
  decide

end Buffer

/-! ## Stream protocol framing (`internal/protocol`, src/unnamed/part_011)

`Proto.Write` and `Proto.Read` delegate to Go's `encoding/gob` (a fresh
encoder/decoder per message, so no cross-message type state), and the field
types `tnet.Addr` and `conf.TCPF` are repository code absent from src/.
Both are therefore modelled from the spec: the spec's data model fixes the
fields of `Addr` and the shadow-flag record, and gob's documented value
encoding fixes the wire form — unsigned integers as one byte below 128 or
a negated-length count byte plus big-endian bytes; structs as
(field-delta, value) pairs for the non-zero fields, terminated by a zero
delta; slices as a count followed by the elements; nil pointers as the
omitted zero value.  The per-type descriptor stream that gob sends before
the first value is constant per type and does not affect the round-trip,
so it is not modelled. -/

namespace Protocol

/-- Big-endian byte string of a natural number (empty for 0). -/
def natBytes : Nat → List Nat
  | 0 => []
  | n + 1 => natBytes ((n + 1) / 256) ++ [(n + 1) % 256]
decreasing_by exact Nat.div_lt_self (Nat.succ_pos n) (by norm_num)

/-- gob unsigned-integer wire format: a value below 128 is a single byte;
otherwise a count byte holding 256 minus the byte length, then the value
big-endian. -/
def encUint (n : Nat) : List Nat :=
  if n < 128 then [n] else (256 - (natBytes n).length) :: natBytes n

/-- Big-endian value of a byte string. -/
def beVal (l : List Nat) : Nat := l.foldl (fun a b => a * 256 + b) 0

def decUint : List Nat → Option (Nat × List Nat)
  | [] => none
  | b :: rest =>
    if b < 128 then some (b, rest)
    else
      let len := 256 - b
      if len ≤ rest.length then some (beVal (rest.take len), rest.drop len)
      else none

theorem beVal_aux (l : List Nat) :
    ∀ a : Nat, l.foldl (fun a b => a * 256 + b) a = a * 256 ^ l.length + beVal l := by
  induction l with
  | nil => intro a; simp [beVal]
  | cons b t ih =>
    intro a
    have hb : beVal (b :: t) = b * 256 ^ t.length + beVal t := by
      unfold beVal
      rw [List.foldl_cons, ih (0 * 256 + b)]
      simp [beVal]
    rw [List.foldl_cons, ih (a * 256 + b), hb, List.length_cons]
    ring

theorem beVal_append (l : List Nat) (b : Nat) :
    beVal (l ++ [b]) = beVal l * 256 + b := by
  unfold beVal
  rw [List.foldl_append]
  simp

theorem beVal_natBytes : ∀ n : Nat, beVal (natBytes n) = n := by
  intro n
  induction n using Nat.strong_induction_on with
  | _ n ih =>
    match n with
    | 0 => simp [natBytes, beVal]
    | m + 1 =>
      rw [natBytes, beVal_append, ih ((m + 1) / 256) (Nat.div_lt_self (Nat.succ_pos m) (by norm_num))]
      omega

theorem natBytes_ne_nil (n : Nat) (h : n ≠ 0) : natBytes n ≠ [] := by
  match n with
  | 0 => exact absurd rfl h
  | m + 1 =>
    rw [natBytes]
    simp

theorem natBytes_length_le : ∀ (k n : Nat), n < 256 ^ k → (natBytes n).length ≤ k := by
  intro k
  induction k with
  | zero => intro n h; interval_cases n; simp [natBytes]
  | succ j ih =>
    intro n h
    match n with
    | 0 => simp [natBytes]
    | m + 1 =>
      rw [natBytes, List.length_append, List.length_singleton]
      have hdiv : (m + 1) / 256 < 256 ^ j := by
        rw [Nat.div_lt_iff_lt_mul (by norm_num)]
        calc m + 1 < 256 ^ (j + 1) := h
        _ = 256 ^ j * 256 := by ring
      exact Nat.succ_le_succ (ih _ hdiv)

theorem decUint_encUint (n : Nat) (r : List Nat) (h : n < 2 ^ 64) :
    decUint (encUint n ++ r) = some (n, r) := by
  unfold encUint
  by_cases h1 : n < 128
  · simp [decUint, h1]
  · have hlen8 : (natBytes n).length ≤ 8 := by
      apply natBytes_length_le
      calc n < 2 ^ 64 := h
      _ = 256 ^ 8 := by norm_num
    have hne : natBytes n ≠ [] := natBytes_ne_nil n (by omega)
    have hpos : 1 ≤ (natBytes n).length := List.length_pos.mpr hne
    rw [if_neg h1]
    show decUint ((256 - (natBytes n).length) :: (natBytes n ++ r)) = some (n, r)
    simp only [decUint]
    rw [if_neg (by omega)]
    have hlen : 256 - (256 - (natBytes n).length) = (natBytes n).length := by omega
    rw [hlen, if_pos (by simp), List.take_left, List.drop_left, beVal_natBytes]


/-- gob struct encoding: each non-zero field is emitted as the delta from
the previously emitted field index (starting at 1 for field 0) followed by
its payload; skipped (zero-valued) fields only grow the next delta; a zero
delta terminates the struct. -/
def encFields : Nat → List (Option (List Nat)) → List Nat
  | _, [] => [0]
  | gap, none :: rest => encFields (gap + 1) rest
  | gap, some payload :: rest => encUint gap ++ payload ++ encFields 1 rest

/-- gob struct decoding loop: read a field delta; zero ends the struct;
otherwise the new field index is the previous one plus the delta (`pos` is
the previous index plus 1), must be below the struct's field count `n`, and
`step` reads that field's value into the accumulator. -/
def decFieldsGo {σ : Type} (n : Nat)
    (step : Nat → σ → List Nat → Option (σ × List Nat)) :
    Nat → σ → List Nat → Option (σ × List Nat)
  | pos, acc, input =>
    match decUint input with
    | none => none
    | some dr =>
      if dr.1 = 0 then some (acc, dr.2)
      else if _h : pos + (dr.1 - 1) < n then
        match step (pos + (dr.1 - 1)) acc dr.2 with
        | none => none
        | some ar => decFieldsGo n step (pos + (dr.1 - 1) + 1) ar.1 ar.2
      else none
termination_by pos _ _ => n - pos
decreasing_by simp_wf; omega

/-- Apply the accumulator updates of the present fields, in order. -/
def applySpecs {σ : Type} (fs : List (Option (List Nat × (σ → σ)))) (acc : σ) : σ :=
  fs.foldl (fun s o => match o with | none => s | some pu => pu.2 s) acc

theorem decFields_encFields {σ : Type} (n : Nat)
    (step : Nat → σ → List Nat → Option (σ × List Nat)) (hn : n < 100) :
    ∀ (fs : List (Option (List Nat × (σ → σ)))) (gap base : Nat) (acc : σ)
      (r : List Nat),
      1 ≤ gap →
      base + gap + fs.length ≤ n + 1 →
      (∀ j pl u, fs.get? j = some (some (pl, u)) →
        ∀ (acc2 : σ) (rest : List Nat),
          step (base + gap - 1 + j) acc2 (pl ++ rest) = some (u acc2, rest)) →
      decFieldsGo n step base acc (encFields gap (fs.map (Option.map Prod.fst)) ++ r)
        = some (applySpecs fs acc, r) := by
  intro fs
  induction fs with
  | nil =>
    intro gap base acc r hgap hb hstep
    show decFieldsGo n step base acc ([0] ++ r) = some (acc, r)
    rw [decFieldsGo]
    have h0 : decUint ([0] ++ r) = some (0, r) := by simp [decUint]
    rw [h0]
    simp
  | cons f rest ih =>
    intro gap base acc r hgap hb hstep
    match f with
    | none =>
      show decFieldsGo n step base acc
          (encFields (gap + 1) (rest.map (Option.map Prod.fst)) ++ r)
        = some (applySpecs rest acc, r)
      refine ih (gap + 1) base acc r (by omega) (by simp at hb; omega) ?_
      intro j pl u hj acc2 rest2
      have harith : base + (gap + 1) - 1 + j = base + gap - 1 + (j + 1) := by omega
      rw [harith]
      exact hstep (j + 1) pl u (by simpa using hj) acc2 rest2
    | some pu =>
      obtain ⟨pl, u⟩ := pu
      obtain ⟨g, rfl⟩ : ∃ g, gap = g + 1 := ⟨gap - 1, by omega⟩
      show decFieldsGo n step base acc
          ((encUint (g + 1) ++ pl ++ encFields 1 (rest.map (Option.map Prod.fst))) ++ r)
        = some (applySpecs rest (u acc), r)
      rw [List.append_assoc, List.append_assoc]
      rw [decFieldsGo]
      rw [decUint_encUint (g + 1) _ (by omega)]
      have hidx : base + g < n := by simp at hb; omega
      set X := encFields 1 (rest.map (Option.map Prod.fst)) ++ r with hX
      have hstep0 : step (base + g) acc (pl ++ X) = some (u acc, X) := by
        have h := hstep 0 pl u rfl acc X
        simpa using h
      simp only [Nat.add_sub_cancel]
      rw [if_neg (by omega), dif_pos hidx, hstep0]
      have hrec := ih 1 (base + g + 1) (u acc) r (by omega) (by simp at hb; omega) ?_
      · show decFieldsGo n step (base + g + 1) (u acc) X = some (applySpecs rest (u acc), r)
        rw [hX]
        exact hrec
      · intro j pl2 u2 hj acc2 rest2
        have harith : base + g + 1 + 1 - 1 + j = base + (g + 1) - 1 + (j + 1) := by omega
        rw [harith]
        exact hstep (j + 1) pl2 u2 (by simpa using hj) acc2 rest2


/-- Modelled from the spec: `tnet.Addr` is repository code absent from
src/; the spec's data model gives (IP family, IP bytes, port). -/
structure Addr where
  family : Nat
  ip : List Nat
  port : Nat
deriving DecidableEq

/-- Modelled from the spec: `conf.TCPF` (ShadowFlags) is repository code
absent from src/; the spec's data model gives last seq seen, last ack
seen, advertised window, TCP flag bits, last-updated timestamp. -/
structure TCPF where
  seq : Nat
  ack : Nat
  window : Nat
  flags : Nat
  updated : Nat
deriving DecidableEq

/-- `Proto` from src/unnamed/part_011: a type byte (`Type` in Go; `ptype`
here as `Type` is reserved), an optional address and a list of shadow
flags. -/
structure Proto where
  ptype : Nat
  addr : Option Addr
  tcpf : List TCPF
deriving DecidableEq

def PPING : Nat := 0x01
def PPONG : Nat := 0x02
def PTCPF : Nat := 0x03
def PTCP : Nat := 0x04
def PUDP : Nat := 0x05
def PTUN : Nat := 0x06

/-- The three `Addr` fields as gob field specs: payload of each non-zero
field, paired with the decoder's corresponding assignment. -/
def addrSpecs (a : Addr) : List (Option (List Nat × (Addr → Addr))) :=
  [ if a.family = 0 then none
      else some (encUint a.family, fun s => { s with family := a.family }),
    if a.ip = [] then none
      else some (encUint a.ip.length ++ a.ip, fun s => { s with ip := a.ip }),
    if a.port = 0 then none
      else some (encUint a.port, fun s => { s with port := a.port }) ]

/-- gob encoding of an `Addr` value. -/
def encAddr (a : Addr) : List Nat :=
  encFields 1 ((addrSpecs a).map (Option.map Prod.fst))

/-- Field reader for `Addr`: field 0 = family (uint), field 1 = ip
(length-prefixed bytes), field 2 = port (uint). -/
def addrStep : Nat → Addr → List Nat → Option (Addr × List Nat) :=
  fun i acc r =>
    if i = 0 then
      match decUint r with
      | none => none
      | some vr => some ({ acc with family := vr.1 }, vr.2)
    else if i = 1 then
      match decUint r with
      | none => none
      | some vr =>
        if vr.1 ≤ vr.2.length then
          some ({ acc with ip := vr.2.take vr.1 }, vr.2.drop vr.1)
        else none
    else if i = 2 then
      match decUint r with
      | none => none
      | some vr => some ({ acc with port := vr.1 }, vr.2)
    else none

/-- gob decoding of an `Addr` value. -/
def decAddr : List Nat → Option (Addr × List Nat) :=
  decFieldsGo 3 addrStep 0 ⟨0, [], 0⟩

/-- Machine-representable `Addr`: every numeric field fits a Go uint64. -/
def AddrWf (a : Addr) : Prop :=
  a.family < 2 ^ 64 ∧ a.ip.length < 2 ^ 64 ∧ a.port < 2 ^ 64

theorem applySpecs_addr (a : Addr) : applySpecs (addrSpecs a) ⟨0, [], 0⟩ = a := by
  obtain ⟨f, ip, pt⟩ := a
  unfold applySpecs addrSpecs
  by_cases hf : f = 0 <;> by_cases hip : ip = ([] : List Nat) <;>
    by_cases hpt : pt = 0 <;> simp [hf, hip, hpt]

theorem decAddr_encAddr (a : Addr) (r : List Nat) (h : AddrWf a) :
    decAddr (encAddr a ++ r) = some (a, r) := by
  obtain ⟨h1, h2, h3⟩ := h
  unfold decAddr encAddr
  rw [decFields_encFields 3 addrStep (by norm_num) (addrSpecs a) 1 0 _ r
    (by norm_num) (by simp [addrSpecs]) ?_, applySpecs_addr]
  intro j pl u hj acc2 rest
  have hidx : 0 + 1 - 1 + j = j := by omega
  rw [hidx]
  match j with
  | 0 =>
    by_cases hf : a.family = 0
    · simp [addrSpecs, hf] at hj
    · simp only [addrSpecs, hf, if_false, List.get?_cons_zero,
        Option.some.injEq] at hj
      obtain ⟨rfl, rfl⟩ := (Prod.mk.injEq _ _ _ _).mp hj
      simp only [addrStep, if_pos rfl]
      rw [decUint_encUint _ _ h1]
      simp
  | 1 =>
    by_cases hip : a.ip = ([] : List Nat)
    · simp [addrSpecs, hip] at hj
    · simp only [addrSpecs, hip, if_false, List.get?_cons_succ,
        List.get?_cons_zero, Option.some.injEq] at hj
      obtain ⟨rfl, rfl⟩ := (Prod.mk.injEq _ _ _ _).mp hj
      simp only [addrStep]
      norm_num
      rw [decUint_encUint _ _ h2]
      simp [List.take_left, List.drop_left]
  | 2 =>
    by_cases hpt : a.port = 0
    · simp [addrSpecs, hpt] at hj
    · simp only [addrSpecs, hpt, if_false, List.get?_cons_succ,
        List.get?_cons_zero, Option.some.injEq] at hj
      obtain ⟨rfl, rfl⟩ := (Prod.mk.injEq _ _ _ _).mp hj
      simp only [addrStep]
      norm_num
      rw [decUint_encUint _ _ h3]
  | j + 3 =>
    simp [addrSpecs] at hj


/-- The five `TCPF` fields as gob field specs. -/
def tcpfSpecs (t : TCPF) : List (Option (List Nat × (TCPF → TCPF))) :=
  [ if t.seq = 0 then none
      else some (encUint t.seq, fun s => { s with seq := t.seq }),
    if t.ack = 0 then none
      else some (encUint t.ack, fun s => { s with ack := t.ack }),
    if t.window = 0 then none
      else some (encUint t.window, fun s => { s with window := t.window }),
    if t.flags = 0 then none
      else some (encUint t.flags, fun s => { s with flags := t.flags }),
    if t.updated = 0 then none
      else some (encUint t.updated, fun s => { s with updated := t.updated }) ]

/-- gob encoding of a `TCPF` value. -/
def encTCPF (t : TCPF) : List Nat :=
  encFields 1 ((tcpfSpecs t).map (Option.map Prod.fst))

/-- Field reader for `TCPF`: five uint fields. -/
def tcpfStep : Nat → TCPF → List Nat → Option (TCPF × List Nat) :=
  fun i acc r =>
    match decUint r with
    | none => none
    | some vr =>
      if i = 0 then some ({ acc with seq := vr.1 }, vr.2)
      else if i = 1 then some ({ acc with ack := vr.1 }, vr.2)
      else if i = 2 then some ({ acc with window := vr.1 }, vr.2)
      else if i = 3 then some ({ acc with flags := vr.1 }, vr.2)
      else if i = 4 then some ({ acc with updated := vr.1 }, vr.2)
      else none

/-- gob decoding of a `TCPF` value. -/
def decTCPF : List Nat → Option (TCPF × List Nat) :=
  decFieldsGo 5 tcpfStep 0 ⟨0, 0, 0, 0, 0⟩

/-- Machine-representable `TCPF`: every field fits a Go uint64. -/
def TCPFWf (t : TCPF) : Prop :=
  t.seq < 2 ^ 64 ∧ t.ack < 2 ^ 64 ∧ t.window < 2 ^ 64 ∧ t.flags < 2 ^ 64
    ∧ t.updated < 2 ^ 64

theorem applySpecs_tcpf (t : TCPF) :
    applySpecs (tcpfSpecs t) ⟨0, 0, 0, 0, 0⟩ = t := by
  obtain ⟨a, b, c, d, e⟩ := t
  unfold applySpecs tcpfSpecs
  by_cases h1 : a = 0 <;> by_cases h2 : b = 0 <;> by_cases h3 : c = 0 <;>
    by_cases h4 : d = 0 <;> by_cases h5 : e = 0 <;> simp [h1, h2, h3, h4, h5]

theorem decTCPF_encTCPF (t : TCPF) (r : List Nat) (h : TCPFWf t) :
    decTCPF (encTCPF t ++ r) = some (t, r) := by
  obtain ⟨h1, h2, h3, h4, h5⟩ := h
  unfold decTCPF encTCPF
  rw [decFields_encFields 5 tcpfStep (by norm_num) (tcpfSpecs t) 1 0 _ r
    (by norm_num) (by simp [tcpfSpecs]) ?_, applySpecs_tcpf]
  intro j pl u hj acc2 rest
  have hidx : 0 + 1 - 1 + j = j := by omega
  rw [hidx]
  match j with
  | 0 =>
    by_cases hz : t.seq = 0
    · simp [tcpfSpecs, hz] at hj
    · simp only [tcpfSpecs, hz, if_false, List.get?_cons_zero,
        Option.some.injEq] at hj
      obtain ⟨rfl, rfl⟩ := (Prod.mk.injEq _ _ _ _).mp hj
      simp only [tcpfStep]
      rw [decUint_encUint _ _ h1]
      simp
  | 1 =>
    by_cases hz : t.ack = 0
    · simp [tcpfSpecs, hz] at hj
    · simp only [tcpfSpecs, hz, if_false, List.get?_cons_succ,
        List.get?_cons_zero, Option.some.injEq] at hj
      obtain ⟨rfl, rfl⟩ := (Prod.mk.injEq _ _ _ _).mp hj
      simp only [tcpfStep]
      rw [decUint_encUint _ _ h2]
      norm_num
  | 2 =>
    by_cases hz : t.window = 0
    · simp [tcpfSpecs, hz] at hj
    · simp only [tcpfSpecs, hz, if_false, List.get?_cons_succ,
        List.get?_cons_zero, Option.some.injEq] at hj
      obtain ⟨rfl, rfl⟩ := (Prod.mk.injEq _ _ _ _).mp hj
      simp only [tcpfStep]
      rw [decUint_encUint _ _ h3]
      norm_num
  | 3 =>
    by_cases hz : t.flags = 0
    · simp [tcpfSpecs, hz] at hj
    · simp only [tcpfSpecs, hz, if_false, List.get?_cons_succ,
        List.get?_cons_zero, Option.some.injEq] at hj
      obtain ⟨rfl, rfl⟩ := (Prod.mk.injEq _ _ _ _).mp hj
      simp only [tcpfStep]
      rw [decUint_encUint _ _ h4]
      norm_num
  | 4 =>
    by_cases hz : t.updated = 0
    · simp [tcpfSpecs, hz] at hj
    · simp only [tcpfSpecs, hz, if_false, List.get?_cons_succ,
        List.get?_cons_zero, Option.some.injEq] at hj
      obtain ⟨rfl, rfl⟩ := (Prod.mk.injEq _ _ _ _).mp hj
      simp only [tcpfStep]
      rw [decUint_encUint _ _ h5]
      norm_num
  | j + 5 =>
    simp [tcpfSpecs] at hj


/-- gob encoding of a `TCPF` slice: element count then the elements. -/
def encTCPFList (l : List TCPF) : List Nat :=
  encUint l.length ++ l.flatMap encTCPF

/-- Decode exactly `k` consecutive `TCPF` values. -/
def decTCPFs : Nat → List Nat → Option (List TCPF × List Nat)
  | 0, r => some ([], r)
  | k + 1, r =>
    match decTCPF r with
    | none => none
    | some tr =>
      match decTCPFs k tr.2 with
      | none => none
      | some lr => some (tr.1 :: lr.1, lr.2)

/-- gob decoding of a `TCPF` slice. -/
def decTCPFList (input : List Nat) : Option (List TCPF × List Nat) :=
  match decUint input with
  | none => none
  | some kr => decTCPFs kr.1 kr.2

theorem decTCPFs_enc (l : List TCPF) (r : List Nat)
    (h : ∀ t ∈ l, TCPFWf t) :
    decTCPFs l.length (l.flatMap encTCPF ++ r) = some (l, r) := by
  induction l with
  | nil => simp [decTCPFs]
  | cons t rest ih =>
    show decTCPFs (rest.length + 1) ((encTCPF t ++ rest.flatMap encTCPF) ++ r)
      = some (t :: rest, r)
    rw [List.append_assoc, decTCPFs]
    rw [decTCPF_encTCPF t _ (h t (List.mem_cons_self t rest))]
    show (match decTCPFs rest.length (rest.flatMap encTCPF ++ r) with
      | none => none
      | some lr => some (t :: lr.1, lr.2)) = some (t :: rest, r)
    rw [ih (fun x hx => h x (List.mem_cons_of_mem t hx))]

theorem decTCPFList_enc (l : List TCPF) (r : List Nat)
    (hlen : l.length < 2 ^ 64) (h : ∀ t ∈ l, TCPFWf t) :
    decTCPFList (encTCPFList l ++ r) = some (l, r) := by
  unfold decTCPFList encTCPFList
  rw [List.append_assoc, decUint_encUint _ _ hlen]
  exact decTCPFs_enc l r h


/-- The three `Proto` fields as gob field specs: the type byte, the
optional address (a nil pointer is the zero value and is omitted; a non-nil
pointer is flattened to the pointed-to `Addr`), the shadow-flag slice
(omitted when empty). -/
def protoSpecs (p : Proto) : List (Option (List Nat × (Proto → Proto))) :=
  [ if p.ptype = 0 then none
      else some (encUint p.ptype, fun s => { s with ptype := p.ptype }),
    match p.addr with
    | none => none
    | some a => some (encAddr a, fun s => { s with addr := some a }),
    if p.tcpf = [] then none
      else some (encTCPFList p.tcpf, fun s => { s with tcpf := p.tcpf }) ]

/-- `Proto.Write`: the gob encoding of the message that
`gob.NewEncoder(w).Encode(p)` emits (value part, specialized to `Proto`). -/
def Proto.Write (p : Proto) : List Nat :=
  encFields 1 ((protoSpecs p).map (Option.map Prod.fst))

/-- Field reader for `Proto`: field 0 = type (uint), field 1 = addr
(nested struct, allocated on decode), field 2 = tcpf (slice). -/
def protoStep : Nat → Proto → List Nat → Option (Proto × List Nat) :=
  fun i acc r =>
    if i = 0 then
      match decUint r with
      | none => none
      | some vr => some ({ acc with ptype := vr.1 }, vr.2)
    else if i = 1 then
      match decAddr r with
      | none => none
      | some ar => some ({ acc with addr := some ar.1 }, ar.2)
    else if i = 2 then
      match decTCPFList r with
      | none => none
      | some lr => some ({ acc with tcpf := lr.1 }, lr.2)
    else none

/-- `Proto.Read`: the gob decoding `gob.NewDecoder(r).Decode(p)` performs
into a fresh `Proto`, returning the decoded message and the unread rest. -/
def Proto.Read (input : List Nat) : Option (Proto × List Nat) :=
  decFieldsGo 3 protoStep 0 ⟨0, none, []⟩ input

/-- Machine-representable `Proto`: all numeric fields and the slice length
fit a Go uint64, as they do for every value `gob` can encode. -/
def ProtoWf (p : Proto) : Prop :=
  p.ptype < 2 ^ 64 ∧ (∀ a ∈ p.addr, AddrWf a) ∧ p.tcpf.length < 2 ^ 64
    ∧ ∀ t ∈ p.tcpf, TCPFWf t

theorem applySpecs_proto (p : Proto) :
    applySpecs (protoSpecs p) ⟨0, none, []⟩ = p := by
  obtain ⟨ty, ad, fl⟩ := p
  unfold applySpecs protoSpecs
  match ad with
  | none =>
    by_cases h1 : ty = 0 <;> by_cases h3 : fl = ([] : List TCPF) <;>
      simp [h1, h3]
  | some a =>
    by_cases h1 : ty = 0 <;> by_cases h3 : fl = ([] : List TCPF) <;>
      simp [h1, h3]

/-- C8: encoding a protocol message with `Proto.Write` and then decoding
the produced bytes with `Proto.Read` yields the original message (and
consumes exactly the encoding), for every message whose numeric fields are
machine-representable — in particular for every type byte among
PING/PONG/TCPF/TCP/UDP/TUN, every optional address and every list of
shadow flags. -/
theorem proto_roundtrip (p : Proto) (r : List Nat) (h : ProtoWf p) :
    Proto.Read (Proto.Write p ++ r) = some (p, r) := by
  obtain ⟨h1, h2, h3, h4⟩ := h
  unfold Proto.Read Proto.Write
  rw [decFields_encFields 3 protoStep (by norm_num) (protoSpecs p) 1 0 _ r
    (by norm_num) (by simp [protoSpecs]) ?_, applySpecs_proto]
  intro j pl u hj acc2 rest
  have hidx : 0 + 1 - 1 + j = j := by omega
  rw [hidx]
  match j with
  | 0 =>
    by_cases hz : p.ptype = 0
    · simp [protoSpecs, hz] at hj
    · simp only [protoSpecs, hz, if_false, List.get?_cons_zero,
        Option.some.injEq] at hj
      obtain ⟨rfl, rfl⟩ := (Prod.mk.injEq _ _ _ _).mp hj
      simp only [protoStep, if_pos rfl]
      rw [decUint_encUint _ _ h1]
      simp
  | 1 =>
    match had : p.addr with
    | none => simp [protoSpecs, had] at hj
    | some a =>
      simp only [protoSpecs, had, List.get?_cons_succ, List.get?_cons_zero,
        Option.some.injEq] at hj
      obtain ⟨rfl, rfl⟩ := (Prod.mk.injEq _ _ _ _).mp hj
      simp only [protoStep]
      norm_num
      rw [decAddr_encAddr a _ (h2 a (by rw [had]; rfl))]
  | 2 =>
    by_cases hz : p.tcpf = ([] : List TCPF)
    · simp [protoSpecs, hz] at hj
    · simp only [protoSpecs, hz, if_false, List.get?_cons_succ,
        List.get?_cons_zero, Option.some.injEq] at hj
      obtain ⟨rfl, rfl⟩ := (Prod.mk.injEq _ _ _ _).mp hj
      simp only [protoStep]
      norm_num
      rw [decTCPFList_enc _ _ h3 h4]
  | j + 3 =>
    simp [protoSpecs] at hj

/-- Witness for `proto_roundtrip`: a concrete TCP-type message with an
address and one shadow-flag entry round-trips. -/
theorem proto_roundtrip_witness :
    Proto.Read (Proto.Write ⟨PTCP, some ⟨4, [127, 0, 0, 1], 443⟩,
        [⟨1000, 2000, 65535, 24, 99⟩]⟩ ++ [7, 7])
      = some (⟨PTCP, some ⟨4, [127, 0, 0, 1], 443⟩,
        [⟨1000, 2000, 65535, 24, 99⟩]⟩, [7, 7]) := by
  apply proto_roundtrip
  refine ⟨by norm_num [PTCP], ?_, by norm_num, ?_⟩
  · intro a ha
    cases ha
    exact ⟨by norm_num, by norm_num, by norm_num⟩
  · intro t ht
    rw [List.mem_singleton] at ht
    subst ht
    exact ⟨by norm_num, by norm_num, by norm_num, by norm_num, by norm_num⟩

end Protocol

/-! ## Server TUN handler (`src/internal/server/tun.go`, src/unnamed/part_009) -/

namespace Server

/-- The Go error values `handleTUNProtocol` distinguishes. -/
inductive GoError where
  | closedPipe
  | eof
  | canceled
  | msg (s : String)
deriving DecidableEq

/-- What the final `select` observes first: the first relay goroutine's
result (a Go error, possibly nil), or the context being done. -/
inductive TUNEvent where
  | copyResult (e : Option GoError)
  | ctxDone (e : GoError)
deriving DecidableEq

/-- `Server.handleTUNProtocol`: given whether TUN is enabled in the config
and whether the TUN device exists (`s.tun != nil`), and the select outcome
of the relay it would start, returns the handler's error (`none` = nil)
and whether the bidirectional relay was started at all. -/
def handleTUNProtocol (tunEnabled tunPresent : Bool) (ev : TUNEvent) :
    Option GoError × Bool :=
  if tunEnabled = false ∨ tunPresent = false then (some .closedPipe, false)
  else
    match ev with
    | .copyResult e =>
      if e ≠ some .canceled ∧ e ≠ some .eof then (e, true) else (none, true)
    | .ctxDone e => (some e, true)

/-- C9: a TUN stream reaching a server whose TUN support is disabled or
whose TUN device is absent is answered with the non-nil error
`io.ErrClosedPipe` before any relay goroutine is started, so the stream is
closed with an error and no bytes are relayed. -/
theorem handleTUN_rejects_when_disabled (tunEnabled tunPresent : Bool)
    (ev : TUNEvent)
    (h : tunEnabled = false ∨ tunPresent = false) :
    handleTUNProtocol tunEnabled tunPresent ev = (some .closedPipe, false) := by
  unfold handleTUNProtocol
  rw [if_pos h]

/-- Witness for `handleTUN_rejects_when_disabled`: TUN disabled in the
config, device present, relay would have succeeded — still rejected. -/
theorem handleTUN_rejects_when_disabled_witness :
    handleTUNProtocol false true (.copyResult none) = (some .closedPipe, false) :=
  handleTUN_rejects_when_disabled false true (.copyResult none) (Or.inl rfl)

end Server

/-! ## TCP transport ping (`src/internal/tnet/tcp/conn.go`)

`Conn.Ping(wait)` opens a stream on the smux session (error on failure);
with `wait` it writes a PING proto message, reads the reply into the same
message and checks the reply type is PONG; without `wait` it returns nil
right after the stream opened.  The stream is closed either way. -/

namespace Tcp

/-- The distinct error exits of `Conn.Ping`. -/
inductive PingErr where
  | openFailed
  | writeFailed
  | readFailed
  | badType
deriving DecidableEq

/-- The environment `Ping` interacts with: whether
`c.Session.OpenStream()` succeeds, whether the PING write succeeds, and
what `p.Read(strm)` produces (`none` = read error). -/
structure PingEnv where
  openOK : Bool
  writeOK : Bool
  reply : Option Protocol.Proto
deriving DecidableEq

/-- `Conn.Ping wait`: the returned error (`none` = nil) and the protocol
messages written to the stream. -/
def Ping (wait : Bool) (env : PingEnv) : Option PingErr × List Protocol.Proto :=
  if env.openOK = false then (some .openFailed, [])
  else if wait then
    let msgs := [({ ptype := Protocol.PPING, addr := none, tcpf := [] } : Protocol.Proto)]
    if env.writeOK = false then (some .writeFailed, msgs)
    else
      match env.reply with
      | none => (some .readFailed, msgs)
      | some q =>
        if q.ptype ≠ Protocol.PPONG then (some .badType, msgs) else (none, msgs)
  else (none, [])

/-- C10: `Ping(false)` writes no protocol message at all and returns nil
exactly when a stream could be opened; `Ping(true)` writes a single PING
message (once the stream is open) and returns nil exactly when the stream
opened, the write succeeded, and the reply was read with type PONG. -/
theorem conn_ping_spec (env : PingEnv) :
    Ping false env
      = (if env.openOK = true then (none, []) else (some .openFailed, []))
    ∧ ((Ping true env).1 = none ↔
        env.openOK = true ∧ env.writeOK = true
          ∧ ∃ q, env.reply = some q ∧ q.ptype = Protocol.PPONG)
    ∧ (Ping true env).2
      = (if env.openOK = true
          then [({ ptype := Protocol.PPING, addr := none, tcpf := [] } : Protocol.Proto)]
          else []) := by
  obtain ⟨o, w, rep⟩ := env
  refine ⟨?_, ?_, ?_⟩
  · cases o <;> simp [Ping]
  · cases o <;> cases w <;> rcases rep with _ | q <;> simp [Ping] <;>
      by_cases hq : q.ptype = Protocol.PPONG <;> simp [hq]
  · cases o <;> cases w <;> rcases rep with _ | q <;> simp [Ping] <;>
      by_cases hq : q.ptype = Protocol.PPONG <;> simp [hq]

end Tcp

end Paqet
